import Mathlib

/-!
Verification of the valijson mutable-adapter layer
(`include/valijson/adapters/jsoncpp_mutable_adapter.hpp` and
`include/valijson/internal/default_helper.hpp`).

The external tree library (`Json::Value` from JsonCpp) and the generic glue
headers (`valijson/internal/adapter.hpp`, `basic_adapter.hpp`,
`frozen_value.hpp`) are not part of the sources; where their behaviour decides
a statement they are modelled from the specification, and each such definition
carries a doc comment saying so.  Everything else is translated directly from
the C++ sources.

A tree value is modelled as an inductive `JValue`; the payload of a JSON
double is modelled as a rational number (this layer only stores and copies
doubles, it never computes with them).  A possibly-null `Json::Value *`
pointer is modelled as `Option JValue`, with `none` standing for an unbound
reference, and mutation is modelled by explicit state passing: each setter
returns the new referenced value.
-/

namespace Valijson

/-- A JSON-like tree value, as stored by the backing representation.
Per the specification's data model, a value holds exactly one of the kinds
`null, boolean, integer, double, string, array, object` at any time; object
member order is the backing representation's member order and keys are
compared by exact byte equality. -/
inductive JValue where
  | vnull
  | vbool (b : Bool)
  | vint (n : Int)
  | vreal (q : Rat)
  | vstring (s : String)
  | varr (elems : List JValue)
  | vobj (members : List (String × JValue))

namespace JValue

/-- Modelled from the spec: `Json::Value::isNull` of the external tree
library — true exactly on the null value. -/
def jsonIsNull : JValue → Bool
  | .vnull => true
  | _ => false

/-- Modelled from the spec: `Json::Value::isBool` — true exactly on booleans. -/
def jsonIsBool : JValue → Bool
  | .vbool _ => true
  | _ => false

/-- Modelled from the spec: `Json::Value::isIntegral` — true exactly on
integral values (the spec's data model holds kinds mutually exclusive:
a value is exactly one of null/boolean/integer/double/string/array/object). -/
def jsonIsIntegral : JValue → Bool
  | .vint _ => true
  | _ => false

/-- Modelled from the spec: `Json::Value::isDouble` — true exactly on
floating-point values. -/
def jsonIsDouble : JValue → Bool
  | .vreal _ => true
  | _ => false

/-- Modelled from the spec: `Json::Value::isNumeric` — true on integral and
floating-point values. -/
def jsonIsNumeric : JValue → Bool
  | .vint _ => true
  | .vreal _ => true
  | _ => false

/-- Modelled from the spec: `Json::Value::isString`. -/
def jsonIsString : JValue → Bool
  | .vstring _ => true
  | _ => false

/-- Modelled from the spec: `Json::Value::isArray`. -/
def jsonIsArray : JValue → Bool
  | .varr _ => true
  | _ => false

/-- Modelled from the spec: `Json::Value::isObject`. -/
def jsonIsObject : JValue → Bool
  | .vobj _ => true
  | _ => false

/-- Modelled from the spec: `Json::Value::size` — element count of an array,
member count of an object, `0` otherwise. -/
def jsonSize : JValue → Nat
  | .varr xs => xs.length
  | .vobj ms => ms.length
  | _ => 0

/-- Modelled from the spec: `Json::Value::asBool`, only invoked under an
`isBool` guard. -/
def asBool : JValue → Bool
  | .vbool b => b
  | _ => false

/-- Modelled from the spec: `Json::Value::asDouble`, only invoked under an
`isDouble` guard. -/
def asDouble : JValue → Rat
  | .vreal q => q
  | _ => 0

/-- Modelled from the spec: `Json::Value::asString`, only invoked under an
`isString` guard. -/
def asString : JValue → String
  | .vstring s => s
  | _ => ""

end JValue

/-- Two's-complement narrowing of an integer to the signed 32-bit range,
modelling the conversion performed by `Json::Value::asInt` (whose return type
`Json::Value::Int` is a 32-bit `int`). -/
def toInt32 (n : Int) : Int :=
  (n + 2 ^ 31) % 2 ^ 32 - 2 ^ 31

/-- Modelled from the spec: `Json::Value::asInt` — the stored integral value,
narrowed to a signed 32-bit `int`. -/
def JValue.asInt : JValue → Int
  | .vbool b => if b then 1 else 0
  | .vint n => toInt32 n
  | _ => 0

/-!
## JsonCppValue (jsoncpp_mutable_adapter.hpp)

`JsonCppValue` wraps a possibly-null `Value *m_value`; the wrapped pointer is
modelled as `Option JValue` (`none` = unbound).  Each getter mirrors the
source's `if (m_value && m_value->is...())` pattern; each setter mirrors
`if (m_value) *m_value = ...` by returning the new referenced value.
-/

/-- `JsonCppValue::getBool`: succeeds iff bound and `isBool`. -/
def getBool (m : Option JValue) : Option Bool :=
  match m with
  | some v => if v.jsonIsBool then some v.asBool else none
  | none => none

/-- `JsonCppValue::setBool`. -/
def setBool (m : Option JValue) (value : Bool) : Option JValue :=
  match m with
  | some _ => some (.vbool value)
  | none => none

/-- `JsonCppValue::getDouble`: succeeds iff bound and `isDouble`. -/
def getDouble (m : Option JValue) : Option Rat :=
  match m with
  | some v => if v.jsonIsDouble then some v.asDouble else none
  | none => none

/-- `JsonCppValue::setDouble`. -/
def setDouble (m : Option JValue) (value : Rat) : Option JValue :=
  match m with
  | some _ => some (.vreal value)
  | none => none

/-- `JsonCppValue::getInteger`: succeeds iff bound and `isIntegral`, and
returns `static_cast<int64_t>(m_value->asInt())` — the stored value narrowed
through the 32-bit accessor. -/
def getInteger (m : Option JValue) : Option Int :=
  match m with
  | some v => if v.jsonIsIntegral then some v.asInt else none
  | none => none

/-- `JsonCppValue::setInteger`. -/
def setInteger (m : Option JValue) (value : Int) : Option JValue :=
  match m with
  | some _ => some (.vint value)
  | none => none

/-- `JsonCppValue::getString`: succeeds iff bound and `isString`. -/
def getString (m : Option JValue) : Option String :=
  match m with
  | some v => if v.jsonIsString then some v.asString else none
  | none => none

/-- `JsonCppValue::setString`. -/
def setString (m : Option JValue) (value : String) : Option JValue :=
  match m with
  | some _ => some (.vstring value)
  | none => none

/-- `JsonCppValue::setAsArray`: `if (m_value) *m_value = Json::arrayValue;`
(assigning the type enum replaces the referenced value by an empty array). -/
def setAsArray (m : Option JValue) : Option JValue :=
  match m with
  | some _ => some (.varr [])
  | none => none

/-- `JsonCppValue::setAsObject`: `if (m_value) *m_value = Json::objectValue;`
(assigning the type enum replaces the referenced value by an empty object). -/
def setAsObject (m : Option JValue) : Option JValue :=
  match m with
  | some _ => some (.vobj [])
  | none => none

/-- `JsonCppValue::setValue`: `if (m_value) *m_value = value;`. -/
def setValue (m : Option JValue) (value : JValue) : Option JValue :=
  match m with
  | some _ => some value
  | none => none

/-- `JsonCppValue::isBool`: `m_value && m_value->isBool()`. -/
def isBoolA (m : Option JValue) : Bool :=
  match m with
  | some v => v.jsonIsBool
  | none => false

/-- `JsonCppValue::isDouble`: `m_value && m_value->isDouble()`. -/
def isDoubleA (m : Option JValue) : Bool :=
  match m with
  | some v => v.jsonIsDouble
  | none => false

/-- `JsonCppValue::isInteger`: `m_value && m_value->isIntegral() &&
!m_value->isBool()`. -/
def isIntegerA (m : Option JValue) : Bool :=
  match m with
  | some v => v.jsonIsIntegral && !v.jsonIsBool
  | none => false

/-- `JsonCppValue::isString`: `m_value && m_value->isString()`. -/
def isStringA (m : Option JValue) : Bool :=
  match m with
  | some v => v.jsonIsString
  | none => false

/-- `JsonCppValue::isNull`: `!m_value || m_value->isNull()`. -/
def isNullA (m : Option JValue) : Bool :=
  match m with
  | some v => v.jsonIsNull
  | none => true

/-- `JsonCppValue::isNumber`: `m_value && m_value->isNumeric() &&
!m_value->isBool()`. -/
def isNumberA (m : Option JValue) : Bool :=
  match m with
  | some v => v.jsonIsNumeric && !v.jsonIsBool
  | none => false

/-- `JsonCppValue::isArray`: `m_value && m_value->isArray() &&
!m_value->isNull()`. -/
def isArrayA (m : Option JValue) : Bool :=
  match m with
  | some v => v.jsonIsArray && !v.jsonIsNull
  | none => false

/-- `JsonCppValue::isObject`: `m_value && m_value->isObject() &&
!m_value->isNull()`. -/
def isObjectA (m : Option JValue) : Bool :=
  match m with
  | some v => v.jsonIsObject && !v.jsonIsNull
  | none => false

/-- `JsonCppValue::freeze`:
`new JsonCppFrozenValue(m_value ? *m_value : Json::Value())` — the frozen
snapshot holds a deep copy of the referenced value, or null when unbound. -/
def freeze (m : Option JValue) : JValue :=
  m.getD .vnull

/-- `JsonCppFrozenValue::clone`: `new JsonCppFrozenValue(m_value)` — an
independent deep copy of the stored value. -/
def cloneFrozen (v : JValue) : JValue := v

/-!
## Container wrappers (jsoncpp_mutable_adapter.hpp)

`JsonCppArray` / `JsonCppObject` wrap a possibly-null `Value *m_value`;
their constructors taking a pointer throw when the pointer is non-null and
the referenced value has the wrong kind.  Construction is modelled as an
`Except`, with the error carrying the thrown message.
-/

/-- `JsonCppArray::JsonCppArray(Value *value)`: throws iff
`value && !value->isArray()`; otherwise stores the pointer. -/
def mkJsonCppArray (value : Option JValue) : Except String (Option JValue) :=
  match value with
  | some v => if !v.jsonIsArray then .error "Value is not an array." else .ok (some v)
  | none => .ok none

/-- `JsonCppObject::JsonCppObject(Value *value)`: throws iff
`value && !value->isObject()`; otherwise stores the pointer. -/
def mkJsonCppObject (value : Option JValue) : Except String (Option JValue) :=
  match value with
  | some v => if !v.jsonIsObject then .error "Value is not an object." else .ok (some v)
  | none => .ok none

/-- `JsonCppArray::size` and `JsonCppObject::size`:
`m_value ? m_value->size() : 0`. -/
def contSize (m : Option JValue) : Nat :=
  match m with
  | some v => v.jsonSize
  | none => 0

/-!
## Object member primitives

An object's members are an association list `List (String × JValue)` with
unique keys; keys are compared by exact byte equality (`String` equality).
-/

/-- Member keys of an association list. -/
def keysOf (ms : List (String × JValue)) : List String :=
  ms.map Prod.fst

/-- Modelled from the spec: `Json::Value::isMember` — true iff a member with
the given key exists. -/
def isMember (ms : List (String × JValue)) (name : String) : Bool :=
  ms.any (·.1 == name)

/-- Lookup of the member named `k` (first match; keys are unique). -/
def objGet (ms : List (String × JValue)) (k : String) : Option JValue :=
  (ms.find? (·.1 == k)).map Prod.snd

/-- Replace the value of the member named `k` in place (no effect when the
key is absent). -/
def objSet (ms : List (String × JValue)) (k : String) (v : JValue) :
    List (String × JValue) :=
  ms.map (fun kv => if kv.1 == k then (kv.1, v) else kv)

/-- Modelled from the spec: the effect of JsonCpp's `(*m_value)[propertyName]`
on the member map, as used by `JsonCppObject::create` — returns the existing
member slot when present, otherwise inserts a new null-valued member first
(spec 4.2: object `create(name)` is idempotent and never duplicates a slot). -/
def objEnsure (ms : List (String × JValue)) (k : String) :
    List (String × JValue) :=
  if isMember ms k then ms else ms ++ [(k, .vnull)]

/-- `JsonCppObject::create(propertyName)`: on an unbound container,
returns an unbound adapter and changes nothing; on a bound container the
object becomes `objEnsure` of its members and the returned adapter is bound
to the slot named `propertyName`.  The result is the new container state
(the returned handle is the key itself, since the slot it points at is
`&(*m_value)[propertyName]`). -/
def objectCreate (m : Option (List (String × JValue))) (propertyName : String) :
    Option (List (String × JValue)) :=
  match m with
  | none => none
  | some ms => some (objEnsure ms propertyName)

/-- `JsonCppArray::create()`: on an unbound container, returns an unbound
adapter and changes nothing; on a bound container, appends one null element
(`m_value->append(Json::nullValue)`) and the returned adapter is bound to the
new slot.  The result is the new container state. -/
def arrayCreate (m : Option (List JValue)) : Option (List JValue) :=
  match m with
  | none => none
  | some xs => some (xs ++ [.vnull])

/-- `JsonCppObject::find(propertyName)`: `isMember` guard, then a linear scan
returning the first iterator whose key equals the name; `none` models the end
iterator, `some` the dereferenced member. -/
def findMember (m : Option JValue) (propertyName : String) :
    Option (String × JValue) :=
  match m with
  | some (.vobj ms) =>
      if isMember ms propertyName then ms.find? (·.1 == propertyName) else none
  | _ => none

/-!
## Capability Dispatch Protocol (default_helper.hpp)

`AssignHelper`, `CreateKeyHelper` and `ResizeHelper` are dispatched at the
type level on the presence of `mutable_adapter_tag` on the destination
adapter type; the primary templates (no tag) have empty bodies.  The tag's
presence is modelled as a boolean `cap`; the primary template corresponds to
`cap = false`.
-/

/-- Array size as seen by `ResizeHelper` (`adapter.size()`, 0 when unbound). -/
def arrSize (m : Option (List JValue)) : Nat :=
  match m with
  | some xs => xs.length
  | none => 0

/-- The loop body of the mutable `ResizeHelper`:
`while (index >= adapter.size()) { adapter.create(); }`.
The `index` is an `unsigned int`, modelled as `Nat`.  `fuel` bounds the
number of iterations we unfold; the outer `none` means the loop has not
terminated within `fuel` iterations. -/
def resizeLoop (fuel : Nat) (arr : Option (List JValue)) (index : Nat) :
    Option (Option (List JValue)) :=
  if index ≥ arrSize arr then
    match fuel with
    | 0 => none
    | fuel' + 1 => resizeLoop fuel' (arrayCreate arr) index
  else
    some arr

/-- `ResizeHelper` with its capability dispatch: the primary template
(`cap = false`) returns immediately without touching the array; the
specialisation for `mutable_adapter_tag` runs the resize loop. -/
def ResizeHelper (cap : Bool) (fuel : Nat) (arr : Option (List JValue))
    (index : Nat) : Option (Option (List JValue)) :=
  if cap then resizeLoop fuel arr index else some arr

/-- `CreateKeyHelper` with its capability dispatch: the primary template
(`cap = false`) is a no-op; the specialisation calls
`adapter.create(propertyName)` on the object container. -/
def CreateKeyHelper (cap : Bool) (obj : Option (List (String × JValue)))
    (propertyName : String) : Option (List (String × JValue)) :=
  if cap then objectCreate obj propertyName else obj

mutual

/-- The body of the mutable `AssignHelper` specialisation applied to a bound
destination, from default_helper.hpp: the source's kind is inspected in the
priority order object, array, string, bool, double, integer (kinds are
mutually exclusive, so the if-chain is a match on the source's constructor);
a null source matches no branch and leaves the destination untouched.
`setAsObject()` / `setAsArray()` here are the adapter-level operations
(see `adapterSetAsObject`); scalar branches call the matching `JsonCppValue`
setter once, replacing the destination value. -/
def assignMut (dest : JValue) (src : JValue) : JValue :=
  match src with
  | .vobj ms =>
      -- adapter.setAsObject(); then create/setValue each source member.
      -- Modelled from the spec: the adapter-level setAsObject does not clear
      -- a destination that is already an object (spec 4.5: destination
      -- composite values are not cleared before merging; members present in
      -- the destination but absent from the source survive).
      .vobj (assignMembers (match dest with
                            | .vobj dms => dms
                            | _ => []) ms)
  | .varr xs =>
      -- adapter.setAsArray(); then append/setValue each source element.
      -- Modelled from the spec: the adapter-level setAsArray does not clear
      -- a destination that is already an array.
      .varr (assignElems (match dest with
                          | .varr ds => ds
                          | _ => []) xs)
  | .vstring s => .vstring s
  | .vbool b => .vbool b
  | .vreal q => .vreal q
  | .vint n => .vint n
  | .vnull => dest

/-- One pass of `to_value.applyToObject`: for each source member,
`adapter.getObjectOptional()->create(key).setValue(val)` — ensure the slot
exists, then recursively assign the source member value into it. -/
def assignMembers (acc : List (String × JValue)) (ms : List (String × JValue)) :
    List (String × JValue) :=
  match ms with
  | [] => acc
  | (k, v) :: rest =>
      let ensured := objEnsure acc k
      let slot := (objGet ensured k).getD .vnull
      assignMembers (objSet ensured k (assignMut slot v)) rest

/-- One pass of `to_value.applyToArray`: for each source element,
`adapter.getArrayOptional()->create().setValue(val)` — append a fresh null
slot, then recursively assign the source element into it. -/
def assignElems (acc : List JValue) (xs : List JValue) : List JValue :=
  match xs with
  | [] => acc
  | x :: rest => assignElems (acc ++ [assignMut .vnull x]) rest

end

/-- `AssignHelper` with its capability dispatch: the primary template
(`cap = false`) is a no-op; the mutable specialisation runs `assignMut` on a
bound destination.  On an unbound destination every inner operation is a
no-op (the setters test `m_value`, and `create()` on an unbound container
returns an unbound adapter), so the destination stays unbound and untouched;
this unbound path is modelled from the spec's invariant that unbound
references are no-ops for every write operation. -/
def AssignHelper (cap : Bool) (dest : Option JValue) (src : JValue) :
    Option JValue :=
  if cap then
    match dest with
    | none => none
    | some d => some (assignMut d src)
  else dest

/-- `JsonCppFrozenValue::setValueInto`, fast path: the destination is a
`MutableJsonCppAdapter` (same concrete representation, mutable
instantiation), so `pinto->getValueHandle().setValue(m_value)` replaces the
destination value by the stored snapshot in a single assignment. -/
def setValueIntoFast (frozenVal : JValue) (dest : Option JValue) :
    Option JValue :=
  setValue dest frozenVal

/-- `JsonCppFrozenValue::setValueInto`, generic path:
`into.setValue(JsonCppAdapter(m_value))`.  Modelled from the spec: the
generic `Adapter::setValue` (adapter.hpp is not part of the sources) invokes
the Capability Dispatch Protocol's `Assign` with the snapshot as source. -/
def setValueIntoGeneric (cap : Bool) (frozenVal : JValue)
    (dest : Option JValue) : Option JValue :=
  AssignHelper cap dest frozenVal

/-!
## Well-formed values and generic structural equality

The data model requires object keys to be unique ("mapping from string key
(unique) to node reference"); `wfV` captures this invariant, recursively.
`equalTo` is the generic cross-representation structural equality of
`Adapter::equalTo` (adapter.hpp is not part of the sources).
-/

/-- Pairwise distinctness of the member keys of an association list. -/
def nodupKeys : List (String × JValue) → Bool
  | [] => true
  | (k, _) :: rest => !(rest.any (·.1 == k)) && nodupKeys rest

mutual

/-- A tree value satisfying the data model's invariant: every object along
the tree has pairwise-distinct member keys. -/
def wfV : JValue → Bool
  | .vobj ms => nodupKeys ms && wfMembers ms
  | .varr xs => wfElems xs
  | _ => true

/-- `wfV` on every member value of an object. -/
def wfMembers : List (String × JValue) → Bool
  | [] => true
  | kv :: rest => wfV kv.2 && wfMembers rest

/-- `wfV` on every element of an array. -/
def wfElems : List JValue → Bool
  | [] => true
  | x :: rest => wfV x && wfElems rest

end

mutual

/-- Modelled from the spec: `Adapter::equalTo(other, strict)` — structural
equality against a node from any representation.  In strict mode kinds must
match exactly (integer and double never compare equal, even when numerically
equal); in non-strict mode numeric kinds compare by numeric value across
kind.  Objects compare by member count plus key-based lookup; arrays
pointwise in order. -/
def equalTo (a b : JValue) (strict : Bool) : Bool :=
  match a, b with
  | .vnull, .vnull => true
  | .vbool x, .vbool y => x == y
  | .vint x, .vint y => x == y
  | .vreal x, .vreal y => x == y
  | .vint x, .vreal y => !strict && ((x : Rat) == y)
  | .vreal x, .vint y => !strict && (x == (y : Rat))
  | .vstring x, .vstring y => x == y
  | .varr xs, .varr ys => equalElems xs ys strict
  | .vobj xs, .vobj ys => (xs.length == ys.length) && equalMembers xs ys strict
  | _, _ => false

/-- Pointwise equality of array elements. -/
def equalElems (xs ys : List JValue) (strict : Bool) : Bool :=
  match xs, ys with
  | [], [] => true
  | x :: xrest, y :: yrest => equalTo x y strict && equalElems xrest yrest strict
  | _, _ => false

/-- Every member of `xs` is present in `ys` with an equal value. -/
def equalMembers (xs ys : List (String × JValue)) (strict : Bool) : Bool :=
  match xs with
  | [] => true
  | (k, v) :: rest =>
      (match objGet ys k with
       | some w => equalTo v w strict
       | none => false) && equalMembers rest ys strict

end

/-- `JsonCppFrozenValue::equalTo(other, strict)`:
`JsonCppAdapter(m_value).equalTo(other, strict)` — the stored snapshot,
wrapped read-only, compared generically against the other node. -/
def frozenEqualTo (frozenVal : JValue) (other : JValue) (strict : Bool) : Bool :=
  equalTo frozenVal other strict

/-!
## Lemmas about the object member primitives
-/

theorem objGet_cons (kv : String × JValue) (rest : List (String × JValue))
    (k : String) :
    objGet (kv :: rest) k = if kv.1 == k then some kv.2 else objGet rest k := by
  by_cases h : kv.1 == k
  · simp [objGet, List.find?_cons_of_pos, h]
  · simp [objGet, List.find?_cons_of_neg, h]

theorem objSet_cons (kv : String × JValue) (rest : List (String × JValue))
    (k : String) (v : JValue) :
    objSet (kv :: rest) k v
      = (if kv.1 == k then (kv.1, v) else kv) :: objSet rest k v := rfl

theorem isMember_cons (kv : String × JValue) (rest : List (String × JValue))
    (k : String) :
    isMember (kv :: rest) k = (kv.1 == k || isMember rest k) := by
  simp [isMember]

theorem objGet_append (ms₂ : List (String × JValue)) (k : String) :
    ∀ ms₁, objGet (ms₁ ++ ms₂) k = (objGet ms₁ k).or (objGet ms₂ k)
  | [] => by simp [objGet]
  | kv :: rest => by
      rw [List.cons_append, objGet_cons, objGet_cons]
      by_cases hk : kv.1 == k
      · simp [hk]
      · simp [hk, objGet_append ms₂ k rest]

theorem objGet_objSet_ne (ms : List (String × JValue)) (k k' : String)
    (v : JValue) (h : k' ≠ k) : objGet (objSet ms k v) k' = objGet ms k' := by
  induction ms with
  | nil => rfl
  | cons kv rest ih =>
      rw [objSet_cons, objGet_cons, objGet_cons]
      by_cases hk : kv.1 == k
      · by_cases hk' : kv.1 == k'
        · exact absurd (by rw [← eq_of_beq hk']; exact eq_of_beq hk) h
        · simp [hk, hk', ih]
      · by_cases hk' : kv.1 == k'
        · simp [hk, hk']
        · simp [hk, hk', ih]

theorem isMember_false_find? (ms : List (String × JValue)) (k : String)
    (h : isMember ms k = false) : ms.find? (·.1 == k) = none := by
  simp only [isMember, List.any_eq_false] at h
  exact List.find?_eq_none.mpr h

theorem objGet_objEnsure_ne (ms : List (String × JValue)) (k k' : String)
    (h : k' ≠ k) : objGet (objEnsure ms k) k' = objGet ms k' := by
  unfold objEnsure
  by_cases hm : isMember ms k
  · simp [hm]
  · have hbk : (k == k') = false := beq_eq_false_iff_ne.mpr (Ne.symm h)
    simp [hm, objGet_append, objGet_cons, hbk, objGet]

theorem objGet_objEnsure_self (ms : List (String × JValue)) (k : String) :
    objGet (objEnsure ms k) k = some ((objGet ms k).getD .vnull) := by
  unfold objEnsure
  by_cases hm : isMember ms k
  · rw [if_pos hm]
    have hs : (ms.find? (·.1 == k)).isSome :=
      List.find?_isSome.mpr (by simpa [isMember, List.any_eq_true] using hm)
    cases hfind : ms.find? (·.1 == k) with
    | none => rw [hfind] at hs; simp at hs
    | some kv => simp [objGet, hfind]
  · have hnone : objGet ms k = none := by
      simp [objGet, isMember_false_find? ms k (by simpa using hm)]
    simp [hm, objGet_append, hnone, objGet_cons]

theorem isMember_append (ms₁ ms₂ : List (String × JValue)) (k : String) :
    isMember (ms₁ ++ ms₂) k = (isMember ms₁ k || isMember ms₂ k) := by
  simp [isMember]

theorem isMember_objEnsure_self (ms : List (String × JValue)) (k : String) :
    isMember (objEnsure ms k) k = true := by
  unfold objEnsure
  by_cases hm : isMember ms k
  · rw [if_pos hm]; exact hm
  · rw [if_neg hm, isMember_append]
    simp [isMember]

theorem objGet_objSet_mem (ms : List (String × JValue)) (k : String)
    (v : JValue) (h : isMember ms k = true) :
    objGet (objSet ms k v) k = some v := by
  induction ms with
  | nil => simp [isMember] at h
  | cons kv rest ih =>
      rw [objSet_cons, objGet_cons]
      by_cases hk : kv.1 == k
      · simp [hk]
      · have h' : isMember rest k = true := by
          simpa [isMember, List.any_cons, hk] using h
        simp [hk, ih h']

theorem objSet_not_mem (ms : List (String × JValue)) (k : String) (v : JValue)
    (h : isMember ms k = false) : objSet ms k v = ms := by
  induction ms with
  | nil => rfl
  | cons kv rest ih =>
      rw [objSet_cons]
      have hk : (kv.1 == k) = false := by
        cases hc : kv.1 == k
        · rfl
        · rw [isMember_cons, hc] at h; simp at h
      have h' : isMember rest k = false := by
        rw [isMember_cons, hk] at h; simpa using h
      simp [hk, ih h']

theorem objSet_append (ms₁ ms₂ : List (String × JValue)) (k : String)
    (v : JValue) :
    objSet (ms₁ ++ ms₂) k v = objSet ms₁ k v ++ objSet ms₂ k v := by
  simp [objSet]

/-!
## Lemmas about the Assign algorithm
-/

theorem assignMembers_preserve (k : String) :
    ∀ (sms acc : List (String × JValue)), (∀ kv ∈ sms, kv.1 ≠ k) →
      objGet (assignMembers acc sms) k = objGet acc k
  | [], _, _ => rfl
  | (k', v) :: rest, acc, h => by
      simp only [assignMembers]
      have hk : k ≠ k' := fun he =>
        (h (k', v) (List.mem_cons_self _ _)) (by simp [he])
      rw [assignMembers_preserve k rest _
            (fun kv hkv => h kv (List.mem_cons_of_mem _ hkv)),
          objGet_objSet_ne _ _ _ _ hk, objGet_objEnsure_ne _ _ _ hk]

theorem assignElems_eq : ∀ (xs acc : List JValue),
    assignElems acc xs = acc ++ xs.map (fun x => assignMut .vnull x)
  | [], acc => by simp [assignElems]
  | x :: rest, acc => by
      simp only [assignElems, List.map_cons]
      rw [assignElems_eq rest (acc ++ [assignMut .vnull x])]
      simp

theorem nodupKeys_cons (k : String) (v : JValue)
    (rest : List (String × JValue)) (h : nodupKeys ((k, v) :: rest) = true) :
    (rest.any (·.1 == k)) = false ∧ nodupKeys rest = true := by
  simp only [nodupKeys, Bool.and_eq_true, Bool.not_eq_true'] at h
  exact h

theorem assignMembers_fresh : ∀ (ms acc : List (String × JValue)),
    (∀ kv ∈ ms, isMember acc kv.1 = false) → nodupKeys ms = true →
    assignMembers acc ms
      = acc ++ ms.map (fun kv => (kv.1, assignMut .vnull kv.2))
  | [], acc, _, _ => by simp [assignMembers]
  | (k, v) :: rest, acc, habs, hnd => by
      simp only [assignMembers]
      obtain ⟨hhead, hrest⟩ := nodupKeys_cons k v rest hnd
      have hk : isMember acc k = false := habs (k, v) (List.mem_cons_self _ _)
      have he : objEnsure acc k = acc ++ [(k, .vnull)] := by
        rw [objEnsure, if_neg (by simp [hk])]
      have hgacc : objGet acc k = none := by
        simp [objGet, isMember_false_find? _ _ hk]
      have hg : objGet (objEnsure acc k) k = some JValue.vnull := by
        rw [objGet_objEnsure_self, hgacc]; rfl
      have hset : objSet (objEnsure acc k) k (assignMut .vnull v)
          = acc ++ [(k, assignMut .vnull v)] := by
        rw [he, objSet_append, objSet_not_mem _ _ _ hk]
        simp [objSet]
      have habs2 : ∀ kv ∈ rest,
          isMember (acc ++ [(k, assignMut .vnull v)]) kv.1 = false := by
        intro kv hkv
        rw [isMember_append]
        have h1 : isMember acc kv.1 = false :=
          habs kv (List.mem_cons_of_mem _ hkv)
        have h2 : kv.1 ≠ k := by
          intro he2
          have := List.any_eq_false.mp hhead kv hkv
          exact this (by simp [he2])
        rw [h1]
        have hne : (k == kv.1) = false :=
          beq_eq_false_iff_ne.mpr (fun hc => h2 hc.symm)
        simp [isMember, hne]
      rw [hg]
      simp only [Option.getD_some]
      rw [hset, assignMembers_fresh rest _ habs2 hrest]
      simp

mutual

theorem assignMut_null : ∀ v : JValue, wfV v = true → assignMut .vnull v = v
  | .vnull, _ => rfl
  | .vbool _, _ => rfl
  | .vint _, _ => rfl
  | .vreal _, _ => rfl
  | .vstring _, _ => rfl
  | .varr xs, h => by
      have hx : wfElems xs = true := by simpa [wfV] using h
      simp only [assignMut]
      rw [assignElems_eq]
      simp [assignElems_null xs hx]
  | .vobj ms, h => by
      have hnd : nodupKeys ms = true := by
        have := h; simp only [wfV, Bool.and_eq_true] at this; exact this.1
      have hm : wfMembers ms = true := by
        have := h; simp only [wfV, Bool.and_eq_true] at this; exact this.2
      simp only [assignMut]
      rw [assignMembers_fresh ms [] (by simp [isMember]) hnd]
      simp [assignMembers_null ms hm]

theorem assignMembers_null : ∀ ms : List (String × JValue),
    wfMembers ms = true →
    ms.map (fun kv => (kv.1, assignMut .vnull kv.2)) = ms
  | [], _ => rfl
  | (k, v) :: rest, h => by
      have hv : wfV v = true := by
        simp only [wfMembers, Bool.and_eq_true] at h; exact h.1
      have hr : wfMembers rest = true := by
        simp only [wfMembers, Bool.and_eq_true] at h; exact h.2
      simp [assignMut_null v hv, assignMembers_null rest hr]

theorem assignElems_null : ∀ xs : List JValue, wfElems xs = true →
    xs.map (fun x => assignMut .vnull x) = xs
  | [], _ => rfl
  | x :: rest, h => by
      have hx : wfV x = true := by
        simp only [wfElems, Bool.and_eq_true] at h; exact h.1
      have hr : wfElems rest = true := by
        simp only [wfElems, Bool.and_eq_true] at h; exact h.2
      simp [assignMut_null x hx, assignElems_null rest hr]

end

/-!
## Lemmas about the generic structural equality
-/

theorem objGet_self_of_nodup : ∀ ms : List (String × JValue),
    nodupKeys ms = true → ∀ kv ∈ ms, objGet ms kv.1 = some kv.2
  | [], _, kv, hkv => by simp at hkv
  | (k, v) :: rest, hnd, kv, hkv => by
      obtain ⟨hhead, hrest⟩ := nodupKeys_cons k v rest hnd
      rw [objGet_cons]
      rcases List.mem_cons.mp hkv with he | hm
      · subst he; simp
      · have hne : (k == kv.1) = false := by
          have hx := List.any_eq_false.mp hhead kv hm
          exact beq_eq_false_iff_ne.mpr (fun hc => hx (by simp [hc.symm]))
        simp only [hne, Bool.false_eq_true, if_false]
        exact objGet_self_of_nodup rest hrest kv hm

mutual

theorem equalTo_refl : ∀ v : JValue, wfV v = true → ∀ strict,
    equalTo v v strict = true
  | .vnull, _, _ => rfl
  | .vbool _, _, _ => by simp [equalTo]
  | .vint _, _, _ => by simp [equalTo]
  | .vreal _, _, _ => by simp [equalTo]
  | .vstring _, _, _ => by simp [equalTo]
  | .varr xs, h, s => by
      simp only [equalTo]
      exact equalElems_refl xs (by simpa [wfV] using h) s
  | .vobj ms, h, s => by
      have hnd : nodupKeys ms = true := by
        simp only [wfV, Bool.and_eq_true] at h; exact h.1
      have hm : wfMembers ms = true := by
        simp only [wfV, Bool.and_eq_true] at h; exact h.2
      simp only [equalTo, Bool.and_eq_true, beq_iff_eq]
      exact ⟨trivial, equalMembers_sub ms ms s hm (objGet_self_of_nodup ms hnd)⟩

theorem equalElems_refl : ∀ xs : List JValue, wfElems xs = true → ∀ s,
    equalElems xs xs s = true
  | [], _, _ => rfl
  | x :: rest, h, s => by
      have hx : wfV x = true := by
        simp only [wfElems, Bool.and_eq_true] at h; exact h.1
      have hr : wfElems rest = true := by
        simp only [wfElems, Bool.and_eq_true] at h; exact h.2
      simp only [equalElems, Bool.and_eq_true]
      exact ⟨equalTo_refl x hx s, equalElems_refl rest hr s⟩

theorem equalMembers_sub : ∀ (sub ms : List (String × JValue)) (s : Bool),
    wfMembers sub = true → (∀ kv ∈ sub, objGet ms kv.1 = some kv.2) →
    equalMembers sub ms s = true
  | [], _, _, _, _ => rfl
  | (k, v) :: rest, ms, s, h, hget => by
      have hv : wfV v = true := by
        simp only [wfMembers, Bool.and_eq_true] at h; exact h.1
      have hr : wfMembers rest = true := by
        simp only [wfMembers, Bool.and_eq_true] at h; exact h.2
      simp only [equalMembers, Bool.and_eq_true]
      refine ⟨?_, equalMembers_sub rest ms s hr
        (fun kv hkv => hget kv (List.mem_cons_of_mem _ hkv))⟩
      rw [hget (k, v) (List.mem_cons_self _ _)]
      exact equalTo_refl v hv s

end

/-- Narrowing to 32 bits is the identity on the signed 32-bit range. -/
theorem toInt32_eq_self (n : Int) (h1 : -(2 ^ 31) ≤ n) (h2 : n ≤ 2 ^ 31 - 1) :
    toInt32 n = n := by
  unfold toInt32
  omega

theorem objEnsure_of_mem (ms : List (String × JValue)) (k : String)
    (h : isMember ms k = true) : objEnsure ms k = ms := by
  unfold objEnsure
  rw [if_pos h]

theorem objEnsure_of_not_mem (ms : List (String × JValue)) (k : String)
    (h : isMember ms k = false) : objEnsure ms k = ms ++ [(k, .vnull)] := by
  unfold objEnsure
  rw [if_neg (by simp [h])]

/-!
## Claims
-/

/-- C1: `Assign(destination, source)` is additive on composite values: for a
bound mutable destination object, every member whose key does not occur in
the source keeps its value across the assignment (in particular, destination
members absent from the source survive); likewise existing destination array
elements are not cleared — they survive as a prefix of the merged array. -/
theorem assign_additive_on_composites
    (dms sms : List (String × JValue)) (k : String)
    (_hdst : isMember dms k = true) (hsrc : ∀ kv ∈ sms, kv.1 ≠ k)
    (ds ss : List JValue) :
    AssignHelper true (some (.vobj dms)) (.vobj sms)
      = some (.vobj (assignMembers dms sms)) ∧
    objGet (assignMembers dms sms) k = objGet dms k ∧
    AssignHelper true (some (.varr ds)) (.varr ss)
      = some (.varr (assignElems ds ss)) ∧
    (assignElems ds ss).take ds.length = ds := by
  refine ⟨?_, assignMembers_preserve k sms dms hsrc, ?_, ?_⟩
  · simp [AssignHelper, assignMut]
  · simp [AssignHelper, assignMut]
  · rw [assignElems_eq]
    exact List.take_left ds _

/-- C1 witness: assigning source `{"y": 2}` into destination `{"x": 1}`
yields `{"x": 1, "y": 2}` — the destination member `"x"` survives. -/
theorem assign_additive_on_composites_witness :
    objGet (assignMembers [("x", JValue.vint 1)] [("y", JValue.vint 2)]) "x"
      = objGet [("x", JValue.vint 1)] "x" ∧
    AssignHelper true (some (.vobj [("x", JValue.vint 1)]))
        (.vobj [("y", JValue.vint 2)])
      = some (.vobj [("x", JValue.vint 1), ("y", JValue.vint 2)]) :=
  ⟨(assign_additive_on_composites [("x", JValue.vint 1)]
      [("y", JValue.vint 2)] "x" (by decide) (by decide) [] []).2.1,
   by simp [AssignHelper, assignMut, assignMembers, objEnsure, isMember,
        objGet, objSet]⟩

/-- C2: with the capability marker absent (the read-only instantiation),
Assign, CreateKey and Resize are the primary templates with empty bodies:
each returns normally, signals no error, and leaves the destination's
observable value completely unchanged. -/
theorem readonly_dispatch_noop (dest : Option JValue) (src : JValue)
    (obj : Option (List (String × JValue))) (name : String)
    (arr : Option (List JValue)) (index fuel : Nat) :
    AssignHelper false dest src = dest ∧
    CreateKeyHelper false obj name = obj ∧
    ResizeHelper false fuel arr index = some arr :=
  ⟨rfl, rfl, rfl⟩

/-- C3 (code evidence): through an unbound reference, the wrapper setters,
array and object `create`, `Assign` and `CreateKey` are all terminating
no-ops, but the mutable `ResizeHelper` is not: its loop
`while (index >= adapter.size()) { adapter.create(); }` never terminates on
an unbound array for any index, because `size()` is stuck at `0`,
`create()` appends nothing, and the unsigned index is always `≥ 0`.
`ResizeHelper true fuel none index = none` says the loop is still running
after `fuel` iterations, for every `fuel`. -/
theorem unbound_resize_diverges (b : Bool) (q : Rat) (n : Int) (s : String)
    (src : JValue) (name : String) (index fuel : Nat) :
    setBool none b = none ∧ setDouble none q = none ∧
    setInteger none n = none ∧ setString none s = none ∧
    setAsArray none = none ∧ setAsObject none = none ∧
    arrayCreate none = none ∧ objectCreate none name = none ∧
    AssignHelper true none src = none ∧
    CreateKeyHelper true none name = none ∧
    ResizeHelper true fuel none index = none := by
  refine ⟨rfl, rfl, rfl, rfl, rfl, rfl, rfl, rfl, rfl, rfl, ?_⟩
  induction fuel with
  | zero => simp [ResizeHelper, resizeLoop, arrSize]
  | succ f ih =>
      simp only [ResizeHelper, if_true] at ih ⊢
      rw [resizeLoop]
      simp only [arrSize, Nat.zero_le, if_pos, arrayCreate]
      exact ih

/-- C4 counterexample: a bound node holding the integral value `2^31` — an
integer-kind node outside the signed 32-bit range — makes `getInteger`
report success yet output `-2^31`, not the stored value, refuting "on
success outputs the stored value". -/
theorem typed_getters_counterexample :
    getInteger (some (.vint 2147483648)) = some (-2147483648) ∧
    getInteger (some (.vint 2147483648)) ≠ some 2147483648 := by
  have h1 : getInteger (some (.vint 2147483648)) = some (toInt32 2147483648) :=
    rfl
  have h2 : toInt32 2147483648 = -2147483648 := by unfold toInt32; norm_num
  refine ⟨h1.trans (by rw [h2]), ?_⟩
  rw [h1, h2]
  intro h
  exact absurd (Option.some.inj h) (by norm_num)

/-- C4 amended: each typed getter reports success iff the node's kind is
exactly that primitive kind (in particular `getInteger` fails on boolean and
double nodes, with no coercion across kinds); on success `getBool`,
`getDouble` and `getString` output the stored value, while `getInteger`
outputs the stored value narrowed to signed 32 bits, which equals the stored
value exactly when it lies within `[-2^31, 2^31-1]`. -/
theorem typed_getters_amended (v : JValue) (b : Bool) (q : Rat) (s : String)
    (n : Int) :
    ((getBool (some v)).isSome = v.jsonIsBool) ∧
    ((getDouble (some v)).isSome = v.jsonIsDouble) ∧
    ((getInteger (some v)).isSome = v.jsonIsIntegral) ∧
    ((getString (some v)).isSome = v.jsonIsString) ∧
    getInteger (some (.vbool b)) = none ∧
    getInteger (some (.vreal q)) = none ∧
    getDouble (some (.vint n)) = none ∧
    getBool (some (.vbool b)) = some b ∧
    getDouble (some (.vreal q)) = some q ∧
    getString (some (.vstring s)) = some s ∧
    getInteger (some (.vint n)) = some (toInt32 n) ∧
    (-(2 ^ 31) ≤ n → n ≤ 2 ^ 31 - 1 → getInteger (some (.vint n)) = some n) := by
  refine ⟨?_, ?_, ?_, ?_, rfl, rfl, rfl, rfl, rfl, rfl, rfl, ?_⟩
  · cases v <;> rfl
  · cases v <;> rfl
  · cases v <;> rfl
  · cases v <;> rfl
  · intro h1 h2
    show some (toInt32 n) = some n
    rw [toInt32_eq_self n h1 h2]

/-- C4 amended witness: `getInteger` fails on a boolean node and succeeds
with the exact stored value on a small integer node. -/
theorem typed_getters_amended_witness :
    getInteger (some (.vbool true)) = none ∧
    getInteger (some (.vint 7)) = some 7 :=
  ⟨(typed_getters_amended .vnull true 0 "" 7).2.2.2.2.1,
   (typed_getters_amended .vnull true 0 "" 7).2.2.2.2.2.2.2.2.2.2.2
     (by norm_num) (by norm_num)⟩

/-- C5: constructing an array or object container over a bound reference
fails with the type-mismatch error iff the referenced value's kind is not
the requested composite kind (and succeeds otherwise); construction over an
unbound reference always succeeds, and the resulting container satisfies
`size() == 0`. -/
theorem container_construction_spec (v : JValue) :
    (mkJsonCppArray (some v) = .error "Value is not an array."
        ↔ v.jsonIsArray = false) ∧
    (mkJsonCppArray (some v) = .ok (some v) ↔ v.jsonIsArray = true) ∧
    (mkJsonCppObject (some v) = .error "Value is not an object."
        ↔ v.jsonIsObject = false) ∧
    (mkJsonCppObject (some v) = .ok (some v) ↔ v.jsonIsObject = true) ∧
    mkJsonCppArray none = .ok none ∧
    mkJsonCppObject none = .ok none ∧
    contSize none = 0 := by
  unfold mkJsonCppArray mkJsonCppObject
  cases hv : v.jsonIsArray <;> cases ho : v.jsonIsObject <;>
    simp [hv, ho, contSize]

/-- C5 witness: an integer node rejects the array container with the
type-mismatch error; a bound object accepts the object container; an unbound
reference yields a container of size 0. -/
theorem container_construction_spec_witness :
    mkJsonCppArray (some (JValue.vint 3)) = .error "Value is not an array." ∧
    mkJsonCppObject (some (JValue.vobj [])) = .ok (some (JValue.vobj [])) ∧
    mkJsonCppArray none = .ok none ∧
    contSize none = 0 :=
  ⟨(container_construction_spec (JValue.vint 3)).1.mpr rfl,
   (container_construction_spec (JValue.vobj [])).2.2.2.1.mpr rfl,
   (container_construction_spec .vnull).2.2.2.2.1,
   (container_construction_spec .vnull).2.2.2.2.2.2⟩

/-- C6: object `create(name)` — backed by `(*m_value)[propertyName]` — is
idempotent: an existing member is returned with its value undisturbed; an
absent name inserts exactly one new null-valued member; a second create with
the same name changes nothing, so the member count grows by at most one
across any number of calls; and both creates name the same slot, so a value
written through one handle is read back through the other. -/
theorem object_create_idempotent (ms : List (String × JValue)) (k : String)
    (v : JValue) :
    objectCreate (some ms) k = some (objEnsure ms k) ∧
    (isMember ms k = true → objEnsure ms k = ms) ∧
    (isMember ms k = false → objEnsure ms k = ms ++ [(k, .vnull)]) ∧
    objEnsure (objEnsure ms k) k = objEnsure ms k ∧
    (objEnsure ms k).length ≤ ms.length + 1 ∧
    objGet (objSet (objEnsure (objEnsure ms k) k) k v) k = some v := by
  refine ⟨rfl, objEnsure_of_mem ms k, objEnsure_of_not_mem ms k, ?_, ?_, ?_⟩
  · exact objEnsure_of_mem _ _ (isMember_objEnsure_self ms k)
  · by_cases h : isMember ms k
    · rw [objEnsure_of_mem ms k h]
      exact Nat.le_succ _
    · rw [objEnsure_of_not_mem ms k (by simpa using h)]
      simp
  · rw [objEnsure_of_mem _ _ (isMember_objEnsure_self ms k)]
    exact objGet_objSet_mem _ _ _ (isMember_objEnsure_self ms k)

/-- C6 witness: create on an existing name leaves the object unchanged;
create on an absent name inserts one null member; a write through the slot
created twice under the same name is read back. -/
theorem object_create_idempotent_witness :
    objEnsure [("a", JValue.vint 1)] "a" = [("a", JValue.vint 1)] ∧
    objEnsure ([] : List (String × JValue)) "b" = [("b", JValue.vnull)] ∧
    objGet (objSet (objEnsure (objEnsure [] "b") "b") "b" (JValue.vint 9)) "b"
      = some (JValue.vint 9) :=
  ⟨(object_create_idempotent [("a", JValue.vint 1)] "a" .vnull).2.1 (by decide),
   (object_create_idempotent [] "b" .vnull).2.2.1 (by decide),
   (object_create_idempotent [] "b" (JValue.vint 9)).2.2.2.2.2⟩

/-- C7 counterexample: with destination `{"x": 1}` and frozen snapshot
`{"y": 2}`, the same-representation fast path replaces the destination with
`{"y": 2}` while the generic path merges additively into
`{"x": 1, "y": 2}`: the two paths produce different observable values, and
the generic path does not leave the destination equal to the snapshot. -/
theorem setValueInto_counterexample :
    setValueIntoFast (.vobj [("y", JValue.vint 2)])
        (some (.vobj [("x", JValue.vint 1)]))
      = some (.vobj [("y", JValue.vint 2)]) ∧
    setValueIntoGeneric true (.vobj [("y", JValue.vint 2)])
        (some (.vobj [("x", JValue.vint 1)]))
      = some (.vobj [("x", JValue.vint 1), ("y", JValue.vint 2)]) ∧
    setValueIntoGeneric true (.vobj [("y", JValue.vint 2)])
        (some (.vobj [("x", JValue.vint 1)]))
      ≠ setValueIntoFast (.vobj [("y", JValue.vint 2)])
        (some (.vobj [("x", JValue.vint 1)])) := by
  refine ⟨rfl, ?_, ?_⟩
  · simp [setValueIntoGeneric, AssignHelper, assignMut, assignMembers,
      objEnsure, isMember, objGet, objSet]
  · simp [setValueIntoGeneric, setValueIntoFast, setValue, AssignHelper,
      assignMut, assignMembers, objEnsure, isMember, objGet, objSet]

/-- C7 amended: the fast path always leaves the destination structurally
equal to the frozen snapshot; the generic path does so when the destination
holds null (a freshly created slot), and on a null destination the two paths
produce equal observable values.  (On composite destinations with extra
members the generic path merges additively instead — see the
counterexample.) -/
theorem setValueInto_amended (f d : JValue) (hwf : wfV f = true) :
    setValueIntoFast f (some d) = some f ∧
    setValueIntoGeneric true f (some .vnull) = some f ∧
    setValueIntoFast f (some .vnull) = setValueIntoGeneric true f (some .vnull) := by
  have hgen : setValueIntoGeneric true f (some .vnull) = some f := by
    have h0 : setValueIntoGeneric true f (some .vnull)
        = some (assignMut .vnull f) := rfl
    rw [h0, assignMut_null f hwf]
  exact ⟨rfl, hgen, by rw [hgen]; rfl⟩

/-- C7 amended witness: for the snapshot `{"y": 2}` and a null destination,
both paths produce exactly the snapshot. -/
theorem setValueInto_amended_witness :
    setValueIntoFast (.vobj [("y", JValue.vint 2)]) (some .vnull)
      = setValueIntoGeneric true (.vobj [("y", JValue.vint 2)]) (some .vnull) ∧
    setValueIntoGeneric true (.vobj [("y", JValue.vint 2)]) (some .vnull)
      = some (.vobj [("y", JValue.vint 2)]) :=
  ⟨(setValueInto_amended (.vobj [("y", JValue.vint 2)]) .vnull
      (by simp [wfV, wfMembers, nodupKeys])).2.2,
   (setValueInto_amended (.vobj [("y", JValue.vint 2)]) .vnull
      (by simp [wfV, wfMembers, nodupKeys])).2.1⟩

/-- C8: freezing any well-formed value (unique member keys, as the data
model requires) and cloning the frozen snapshot yields a value that is
`equalTo` the original in strict mode; `equalTo` is the generic
representation-independent comparison, so this covers originals from any
representation modelled by `JValue`. -/
theorem freeze_clone_equalTo (v : JValue) (h : wfV v = true) :
    frozenEqualTo (cloneFrozen (freeze (some v))) v true = true := by
  show equalTo v v true = true
  exact equalTo_refl v h true

/-- C8 witness: a nested object/array value round-trips through freeze and
clone and compares strictly equal to the original. -/
theorem freeze_clone_equalTo_witness :
    frozenEqualTo
      (cloneFrozen (freeze (some (.vobj [("a", JValue.varr [JValue.vint 1, JValue.vnull]), ("b", JValue.vreal 2)]))))
      (.vobj [("a", JValue.varr [JValue.vint 1, JValue.vnull]), ("b", JValue.vreal 2)]) true = true :=
  freeze_clone_equalTo _ (by simp [wfV, wfMembers, wfElems, nodupKeys])

/-- C9: `find(name)` returns the end iterator iff no member named `name`
exists; otherwise the dereferenced member's key equals `name` by exact byte
equality.  On an unbound object container `find` returns the end iterator,
consistently with the container having no members. -/
theorem find_member_spec (ms : List (String × JValue)) (name : String) :
    (findMember (some (.vobj ms)) name = none ↔ ∀ kv ∈ ms, kv.1 ≠ name) ∧
    (∀ kv, findMember (some (.vobj ms)) name = some kv → kv.1 = name) ∧
    findMember none name = none := by
  have hred : findMember (some (.vobj ms)) name
      = if isMember ms name then ms.find? (·.1 == name) else none := rfl
  refine ⟨?_, ?_, rfl⟩
  · rw [hred]
    by_cases hm : isMember ms name
    · rw [if_pos hm]
      constructor
      · intro hfind kv hkv
        have := List.find?_eq_none.mp hfind kv hkv
        simpa using this
      · intro hall
        exfalso
        simp only [isMember, List.any_eq_true] at hm
        obtain ⟨kv, hkv, hbeq⟩ := hm
        exact hall kv hkv (by simpa using hbeq)
    · rw [if_neg hm]
      have hfalse : isMember ms name = false := by simpa using hm
      constructor
      · intro _ kv hkv
        have hx : ∀ (a : String) (b : JValue), (a, b) ∈ ms → ¬a = name := by
          simpa [isMember] using hfalse
        exact hx kv.1 kv.2 hkv
      · intro _; rfl
  · rw [hred]
    by_cases hm : isMember ms name
    · rw [if_pos hm]
      intro kv hfind
      have := List.find?_some hfind
      simpa using this
    · rw [if_neg hm]
      intro kv h
      cases h

/-- C9 witness: `find` misses an absent name and any hit on a present name
carries exactly that key. -/
theorem find_member_spec_witness :
    findMember (some (.vobj [("a", JValue.vint 1)])) "b" = none ∧
    (∀ kv, findMember (some (.vobj [("a", JValue.vint 1)])) "a" = some kv →
      kv.1 = "a") :=
  ⟨(find_member_spec [("a", JValue.vint 1)] "b").1.mpr (by decide),
   (find_member_spec [("a", JValue.vint 1)] "a").2.1⟩

/-- C10: for every bound node holding an integral value within
`[-2^31, 2^31-1]`, `getInteger` succeeds and outputs exactly that value; in
general the output is the stored value narrowed through the 32-bit accessor
(`asInt`) before widening to int64, so exact round-tripping is only
guaranteed on that range. -/
theorem getInteger_int32 (n : Int) (h1 : -(2 ^ 31) ≤ n)
    (h2 : n ≤ 2 ^ 31 - 1) :
    getInteger (some (.vint n)) = some n ∧
    ∀ m : Int, getInteger (some (.vint m)) = some (toInt32 m) := by
  refine ⟨?_, fun m => rfl⟩
  show some (toInt32 n) = some n
  rw [toInt32_eq_self n h1 h2]

/-- C10 witness: a small integer round-trips exactly. -/
theorem getInteger_int32_witness :
    getInteger (some (.vint 5)) = some 5 :=
  (getInteger_int32 5 (by norm_num) (by norm_num)).1

end Valijson
